import Mathlib

/-! ### Base64url codec (models Go `encoding/base64` RawURLEncoding / URLEncoding
as used by `EncodeSegment` / `DecodeSegment` in token.go).  The Go decoder's
newline-skipping is not modelled; JWT segments never contain newlines. -/

/-- The base64url alphabet used by Go `base64.URLEncoding` and `base64.RawURLEncoding`. -/
def b64Alphabet : List Char :=
  ("ABCDEFGHIJKLMNOPQRSTUVWXYZabcdefghijklmnopqrstuvwxyz0123456789-_").data

/-- Position of a character in an alphabet list, leftmost first. -/
def b64Lookup (c : Char) : List Char → Option Nat
  | [] => none
  | d :: rest => if d = c then some 0 else (b64Lookup c rest).map (fun i => i + 1)

/-- Decode map of the base64url alphabet (Go builds the same map from the encoder string);
`'='` and every character outside the alphabet map to `none`. -/
def b64Index (c : Char) : Option Nat := b64Lookup c b64Alphabet

/-- Character of the base64url alphabet at a 6-bit index. -/
def b64Char (i : Nat) : Char := b64Alphabet.getD i 'A'

/-- One 3-byte quantum of base64 encoding (Go `encoding/base64` Encode main loop). -/
def encode3 (a b c : Nat) : List Char :=
  [b64Char (a / 4), b64Char (a % 4 * 16 + b / 16), b64Char (b % 16 * 4 + c / 64),
    b64Char (c % 64)]

/-- Unpadded base64url encoding of a byte sequence
(Go `base64.RawURLEncoding.EncodeToString`): full 3-byte quanta, then a
2- or 3-character tail for 1 or 2 leftover bytes, no padding emitted. -/
def encodeRawURL : List Nat → List Char
  | [] => []
  | [a] => [b64Char (a / 4), b64Char (a % 4 * 16)]
  | [a, b] => [b64Char (a / 4), b64Char (a % 4 * 16 + b / 16), b64Char (b % 16 * 4)]
  | a :: b :: c :: rest => encode3 a b c ++ encodeRawURL rest

/-- One 4-character quantum of base64 decoding into 3 bytes. -/
def decode4 (v1 v2 v3 v4 : Nat) : List Nat :=
  [v1 * 4 + v2 / 16, v2 % 16 * 16 + v3 / 4, v3 % 4 * 64 + v4]

/-- Unpadded base64url decoding (Go `base64.RawURLEncoding.DecodeString`):
full 4-character quanta, a 2- or 3-character tail yielding 1 or 2 bytes
(trailing unused bits ignored, as in Go's non-strict decoder), a
1-character tail or any character outside the alphabet is an error. -/
def decodeRawURL : List Char → Option (List Nat)
  | [] => some []
  | [_] => none
  | [c1, c2] =>
    match b64Index c1, b64Index c2 with
    | some v1, some v2 => some [v1 * 4 + v2 / 16]
    | _, _ => none
  | [c1, c2, c3] =>
    match b64Index c1, b64Index c2, b64Index c3 with
    | some v1, some v2, some v3 => some [v1 * 4 + v2 / 16, v2 % 16 * 16 + v3 / 4]
    | _, _, _ => none
  | c1 :: c2 :: c3 :: c4 :: rest =>
    match b64Index c1, b64Index c2, b64Index c3, b64Index c4, decodeRawURL rest with
    | some v1, some v2, some v3, some v4, some r => some (decode4 v1 v2 v3 v4 ++ r)
    | _, _, _, _, _ => none

/-- Padded base64url decoding (Go `base64.URLEncoding.DecodeString`):
the input must consist of 4-character quanta; the final quantum may end in
`"=="` (1 byte) or `"="` (2 bytes); padding anywhere else, a partial final
quantum, or a character outside the alphabet is an error. -/
def decodeURL : List Char → Option (List Nat)
  | [] => some []
  | c1 :: c2 :: c3 :: c4 :: rest =>
    match b64Index c1, b64Index c2 with
    | some v1, some v2 =>
      if c3 = '=' then
        if c4 = '=' ∧ rest = [] then some [v1 * 4 + v2 / 16] else none
      else
        match b64Index c3 with
        | some v3 =>
          if c4 = '=' then
            if rest = [] then some [v1 * 4 + v2 / 16, v2 % 16 * 16 + v3 / 4] else none
          else
            match b64Index c4, decodeURL rest with
            | some v4, some r => some (decode4 v1 v2 v3 v4 ++ r)
            | _, _ => none
        | none => none
    | _, _ => none
  | _ => none

/-- Pad a segment with `'='` to a multiple of 4 characters, exactly as
`DecodeSegment` does in token.go when `DecodePaddingAllowed` is set. -/
def padTo4 (s : List Char) : List Char :=
  if s.length % 4 = 0 then s else s ++ List.replicate (4 - s.length % 4) '='

/-- EncodeSegment from token.go: JWT base64url encoding with padding stripped
(`base64.RawURLEncoding.EncodeToString`).  It never reads the process-wide
`DecodePaddingAllowed` flag. -/
def EncodeSegment (seg : List Nat) : List Char := encodeRawURL seg

/-- DecodeSegment from token.go, with the process-wide `DecodePaddingAllowed`
flag passed explicitly: when the flag is set, the segment is padded to a
multiple of 4 with `'='` and decoded with `base64.URLEncoding`; otherwise it
is decoded with `base64.RawURLEncoding`. -/
def DecodeSegment (decodePaddingAllowed : Bool) (seg : List Char) : Option (List Nat) :=
  if decodePaddingAllowed then decodeURL (padTo4 seg)
  else decodeRawURL seg

/-! ### JSON values (models the fragment of `encoding/json` used by the library:
flat objects whose values are strings, numbers, booleans or null; the
`unsupported` constructor models Go values `json.Marshal` rejects, making
serialization fallible as in Go). -/

/-- A scalar JSON value as stored in a token header or a map-claims entry. -/
inductive JVal where
  | null
  | bool (b : Bool)
  | num (n : Int)
  | str (s : String)
  | unsupported (description : String)
deriving DecidableEq

/-- JSON string escaping for the quote and backslash characters. -/
def escapeChar (c : Char) : List Char :=
  if c = '\x22' then ['\\', '\x22'] else if c = '\\' then ['\\', '\\'] else [c]

/-- A JSON-quoted string literal. -/
def quoteString (s : String) : List Char :=
  '\x22' :: (s.data.map escapeChar).flatten ++ ['\x22']

/-- Serialize one scalar JSON value; fails on an unsupported Go value,
as `json.Marshal` does. -/
def serializeJVal : JVal → Except String (List Char)
  | .null => .ok (("null").data)
  | .bool true => .ok (("true").data)
  | .bool false => .ok (("false").data)
  | .num n => .ok ((toString n).data)
  | .str s => .ok (quoteString s)
  | .unsupported d => .error ("json: unsupported type: " ++ d)

/-- Serialize the comma-separated field list of a flat JSON object. -/
def serializeFields : List (String × JVal) → Except String (List Char)
  | [] => .ok []
  | [(k, v)] => do
      let vc ← serializeJVal v
      .ok (quoteString k ++ ':' :: vc)
  | (k, v) :: rest => do
      let vc ← serializeJVal v
      let rc ← serializeFields rest
      .ok (quoteString k ++ ':' :: vc ++ ',' :: rc)

/-- Serialize a flat JSON object (models `json.Marshal` on a Go map or struct
whose values are scalars; field order is the list order of the model). -/
def serializeObj (fields : List (String × JVal)) : Except String (List Char) := do
  let fc ← serializeFields fields
  .ok ('\x7b' :: fc ++ ['\x7d'])

/-! ### JSON parsing of flat objects (models the fragment of `encoding/json`
decoding needed by the parse pipeline: a single object with scalar fields and
no insignificant whitespace). -/

/-- Parse the body of a JSON string literal after its opening quote, undoing
the minimal escapes produced by `escapeChar`; returns the string contents and
the remaining input, or fails on an unterminated literal. -/
def parseStringBody : List Char → Option (List Char × List Char)
  | [] => none
  | '\x22' :: rest => some ([], rest)
  | '\\' :: c :: rest =>
    match parseStringBody rest with
    | some (s, r) => some (c :: s, r)
    | none => none
  | c :: rest =>
    match parseStringBody rest with
    | some (s, r) => some (c :: s, r)
    | none => none

/-- Split a maximal run of decimal digits off the front of the input. -/
def spanDigits : List Char → List Char × List Char
  | [] => ([], [])
  | c :: rest =>
    if c.isDigit then
      let p := spanDigits rest
      (c :: p.1, p.2)
    else ([], c :: rest)

/-- Numeric value of a digit run. -/
def digitsToNat (ds : List Char) : Nat :=
  ds.foldl (fun acc c => acc * 10 + (c.toNat - 48)) 0

/-- Parse one scalar JSON value (string, integer, boolean or null). -/
def parseJValue : List Char → Option (JVal × List Char)
  | '\x22' :: rest =>
    match parseStringBody rest with
    | some (s, r) => some (JVal.str (String.mk s), r)
    | none => none
  | '-' :: rest =>
    match spanDigits rest with
    | ([], _) => none
    | (ds, r) => some (JVal.num (-(digitsToNat ds : Int)), r)
  | 't' :: 'r' :: 'u' :: 'e' :: rest => some (JVal.bool true, rest)
  | 'f' :: 'a' :: 'l' :: 's' :: 'e' :: rest => some (JVal.bool false, rest)
  | 'n' :: 'u' :: 'l' :: 'l' :: rest => some (JVal.null, rest)
  | input =>
    match spanDigits input with
    | ([], _) => none
    | (ds, r) => some (JVal.num (digitsToNat ds : Int), r)

/-- Parse the nonempty field list of a JSON object up to and including the
closing brace, with an explicit fuel bound for termination. -/
def parseFieldsAux : Nat → List Char → Option (List (String × JVal) × List Char)
  | 0, _ => none
  | fuel + 1, '\x22' :: rest =>
    match parseStringBody rest with
    | some (k, ':' :: rest2) =>
      match parseJValue rest2 with
      | some (v, ',' :: rest3) =>
        match parseFieldsAux fuel rest3 with
        | some (fs, r) => some ((String.mk k, v) :: fs, r)
        | none => none
      | some (v, '\x7d' :: rest3) => some ([(String.mk k, v)], rest3)
      | _ => none
    | _ => none
  | _ + 1, _ => none

/-- Parse a complete flat JSON object, requiring the whole input to be consumed. -/
def parseJsonObj (s : List Char) : Option (List (String × JVal)) :=
  match s with
  | '\x7b' :: '\x7d' :: rest => if rest = [] then some [] else none
  | '\x7b' :: rest =>
    match parseFieldsAux (rest.length + 1) rest with
    | some (fs, []) => some fs
    | _ => none
  | _ => none

/-! ### Token data model and issuance path (token.go). -/

/-- Typed errors of the library, following the specification's taxonomy (§7).
Errors produced by external collaborators are tagged by provenance at the call
site that receives them: `marshalError` for `encoding/json` serialization
failures and `signError` for `SigningMethod.Sign` failures. -/
inductive TokenError where
  | malformedTokenError (msg : String)
  | unverifiableError (msg : String)
  | signatureInvalidError (msg : String)
  | claimsInvalidError (msg : String)
  | marshalError (msg : String)
  | signError (msg : String)
deriving DecidableEq

/-- A value of the Go `Claims` interface, characterized by its two observable
behaviors: the result of `json.Marshal` on it, and the result of its `Valid()`
method at the ambient `TimeFunc` instant (`none` meaning valid).  Concrete
claims implementations live outside token.go, so they are modelled by these
observations. -/
structure Claims where
  marshal : Except String (List Char)
  valid : Option String

/-- The Go value `MapClaims\x7b\x7d` used by `New`: an empty claims map.  It
marshals to the JSON object with no fields, and its `Valid()` method reports no
violation because no time-based claim is present (absent claim means the rule
does not apply). -/
def MapClaimsEmpty : Claims :=
  { marshal := serializeObj [], valid := none }

/-- The `SigningMethod[T]` interface: an algorithm name, a signing function
returning the encoded third segment (as in token.go, where its result is
joined directly into the compact string), and a verification function over the
signing input and decoded signature bytes (`none` meaning the signature
authenticates). -/
structure SigningMethod (K : Type) where
  Alg : String
  Sign : List Char → K → Except String (List Char)
  Verify : List Char → List Nat → K → Option String

/-- The `Token[T]` struct from token.go.  `Header` is the ordered string-to-value
mapping of the first segment; `Raw` and `Signature` are empty until populated
by parsing; `Valid` is the verified flag. -/
structure Token (K : Type) where
  Raw : List Char
  Method : SigningMethod K
  Header : List (String × JVal)
  Claims : Claims
  Signature : List Char
  Valid : Bool

/-- The `Keyfunc[T]` callback type: receives the parsed but unverified token
and returns key material or an error. -/
def Keyfunc (K : Type) := Token K → Except String K

/-- NewWithClaims from token.go: a fresh token with header entries
`typ ↦ "JWT"` and `alg ↦ method.Alg()`, the supplied claims and method, and
zero values (empty `Raw` and `Signature`, `Valid = false`) for the remaining
fields, exactly as the Go struct literal. -/
def NewWithClaims {K : Type} (method : SigningMethod K) (claims : Claims) : Token K :=
  { Raw := []
    Method := method
    Header := [("typ", JVal.str "JWT"), ("alg", JVal.str method.Alg)]
    Claims := claims
    Signature := []
    Valid := false }

/-- New from token.go: `NewWithClaims` with an empty claims map. -/
def New {K : Type} (method : SigningMethod K) : Token K :=
  NewWithClaims method MapClaimsEmpty

/-- UTF-8 bytes of a serializer output (the serializer emits ASCII, where the
byte value is the code point). -/
def strToBytes (s : List Char) : List Nat := s.map Char.toNat

/-- Characters of a decoded byte sequence, for feeding segment bytes to the
JSON layer. -/
def bytesToChars (b : List Nat) : List Char := b.map Char.ofNat

/-- SigningString from token.go, with the method receiver passed as explicit
state and returned unchanged or updated exactly as the Go body does:
marshal the header, marshal the claims, encode both segments, join with a dot.
The Go method performs no assignment to the receiver's fields. -/
def Token.SigningString {K : Type} (t : Token K) :
    Except TokenError (List Char) × Token K :=
  match serializeObj t.Header with
  | .error e => (.error (.marshalError e), t)
  | .ok jsonValue =>
    let header := EncodeSegment (strToBytes jsonValue)
    match t.Claims.marshal with
    | .error e => (.error (.marshalError e), t)
    | .ok jsonValue2 =>
      let claim := EncodeSegment (strToBytes jsonValue2)
      (.ok (header ++ '.' :: claim), t)

/-- SignedString from token.go: build the signing string, sign it with the
token's method and the supplied key, and join the signature as the third
segment.  As in `SigningString`, the receiver is threaded explicitly and the
Go body performs no assignment to it. -/
def Token.SignedString {K : Type} (t : Token K) (key : K) :
    Except TokenError (List Char) × Token K :=
  match t.SigningString with
  | (.error e, t1) => (.error e, t1)
  | (.ok sstr, t1) =>
    match t1.Method.Sign sstr key with
    | .error e => (.error (.signError e), t1)
    | .ok sig => (.ok (sstr ++ '.' :: sig), t1)

/-! ### Concrete instances used by the witnesses -/

/-- A demonstration signing method over a unit key type, used to instantiate
witnesses on concrete inputs. -/
def demoMethod : SigningMethod Unit :=
  { Alg := "demo"
    Sign := fun _ _ => .ok (("sig").data)
    Verify := fun _ _ _ => none }

/-- Claims whose `exp` field lies in the past: they marshal to a fixed JSON
object and their `Valid()` method reports an expiry violation.  Used to witness
that issuance ignores claim validity. -/
def expiredClaims : Claims :=
  { marshal := serializeObj [("exp", JVal.num 1)], valid := some "token is expired" }

/-! ### Parser configuration (parser_option.go) and the verification state
machine.  The `Parser` struct and its `Parse`/`ParseWithClaims` methods live in
a file of this repository that is not part of the sources here; they are
modelled from the specification (§4.4), with the process-wide registry, padding
flag and current time passed as explicit arguments. -/

/-- Modelled from the spec: the `Parser` configuration record whose fields are
assigned by the options in parser_option.go (`ValidMethods`, `UseJSONNumber`,
`SkipClaimsValidation`).  `ValidMethods = none` models the nil Go slice,
meaning no allow-list is configured. -/
structure Parser (K : Type) where
  ValidMethods : Option (List String) := none
  UseJSONNumber : Bool := false
  SkipClaimsValidation : Bool := false

/-- ParserOption from parser_option.go: a function that manipulates the
parser's configuration (Go mutates the pointed-to struct; the model returns the
updated record). -/
def ParserOption (K : Type) := Parser K → Parser K

/-- WithValidMethods from parser_option.go: supplies the allow-list of
algorithm names; only those methods will be considered valid. -/
def WithValidMethods {K : Type} (methods : List String) : ParserOption K :=
  fun p => { p with ValidMethods := some methods }

/-- WithJSONNumber from parser_option.go: configures the JSON parser with
UseNumber (lossless numeric decoding). -/
def WithJSONNumber {K : Type} : ParserOption K :=
  fun p => { p with UseJSONNumber := true }

/-- WithoutClaimsValidation from parser_option.go: disables claims validation. -/
def WithoutClaimsValidation {K : Type} : ParserOption K :=
  fun p => { p with SkipClaimsValidation := true }

/-- Modelled from the spec: `NewParser` (missing from the sources) applies each
functional option in order to a default-configured parser. -/
def NewParser {K : Type} (options : List (ParserOption K)) : Parser K :=
  options.foldl (fun p o => o p) {}

/-- Split a string at every dot, as Go `strings.Split(s, ".")`: the result
always has one more element than the number of dots. -/
def splitOnDot : List Char → List (List Char)
  | [] => [[]]
  | '.' :: rest => [] :: splitOnDot rest
  | c :: rest =>
    match splitOnDot rest with
    | [] => [[c]]
    | seg :: segs => (c :: seg) :: segs

/-- Modelled from the spec (§4.3): the standard time-based claim rules at zero
leeway over a decoded claims mapping — expiration, not-before and issued-at;
an absent claim means the rule does not apply, and all violations are
accumulated before failing.  `now` is the explicit current time
(seconds since epoch) from the process-wide time source. -/
def claimsValidAt (now : Int) (entries : List (String × JVal)) : Option String :=
  let errs :=
    (match entries.lookup "exp" with
      | some (JVal.num e) => if e < now then [("token is expired" : String)] else []
      | _ => []) ++
    (match entries.lookup "nbf" with
      | some (JVal.num n) => if n > now then [("token is not valid yet" : String)] else []
      | _ => []) ++
    (match entries.lookup "iat" with
      | some (JVal.num i) => if i > now then [("token used before issued" : String)] else []
      | _ => [])
  if errs = [] then none else some (String.intercalate "; " errs)

/-- Modelled from the spec (§4.4 steps 4 to 7, after the allow-list check):
resolve the method named `alg` through the registry, build the
parsed-but-unverified token, invoke the key resolver, authenticate the
signature over the original signing input, and validate the claims at the
current time unless validation is disabled. -/
def parseResolveAndVerify {K : Type} (p : Parser K)
    (registry : String → Option (SigningMethod K)) (now : Int)
    (tokenString s1 s2 s3 : List Char) (header claimFields : List (String × JVal))
    (sigBytes : List Nat) (alg : String) (keyFunc : Keyfunc K) :
    Option (Token K) × Option TokenError :=
  match registry alg with
  | none => (none, some (.unverifiableError ("signing method (alg) is unavailable")))
  | some method =>
    let token : Token K :=
      { Raw := tokenString
        Method := method
        Header := header
        Claims := { marshal := serializeObj claimFields
                    valid := claimsValidAt now claimFields }
        Signature := s3
        Valid := false }
    match keyFunc token with
    | .error e => (some token, some (.unverifiableError e))
    | .ok key =>
      match method.Verify (s1 ++ '.' :: s2) sigBytes key with
      | some e => (some token, some (.signatureInvalidError e))
      | none =>
        if p.SkipClaimsValidation then (some { token with Valid := true }, none)
        else
          match claimsValidAt now claimFields with
          | some e => (some token, some (.claimsInvalidError e))
          | none => (some { token with Valid := true }, none)

/-- Modelled from the spec (§4.4): the verification state machine
`ParseWithClaims`.  Stages: split into exactly three dot-separated segments and
base64url-decode each (`malformedTokenError` otherwise); JSON-decode header and
payload (`malformedTokenError` otherwise); read `alg` from the header and, when
an allow-list is configured, fail `unverifiableError` unless `alg` is a member;
resolve the method through the registry (`unverifiableError` if unknown);
invoke the key resolver on the parsed-but-unverified token, wrapping its error
as `unverifiableError`; verify the signature over the original signing input
(`signatureInvalidError` on mismatch); finally validate the claims at the
current time unless disabled, returning the token together with a
`claimsInvalidError` on violation, and the token marked valid on success.  The
caller-supplied claims value gives the decoded payload its shape; the model
decodes into the open-mapping shape.  Failures before method resolution return
an absent token, as the specification permits. -/
def Parser.ParseWithClaims {K : Type} (p : Parser K)
    (registry : String → Option (SigningMethod K)) (decodePaddingAllowed : Bool)
    (now : Int) (tokenString : List Char) (claims : Claims) (keyFunc : Keyfunc K) :
    Option (Token K) × Option TokenError :=
  match splitOnDot tokenString with
  | [s1, s2, s3] =>
    match DecodeSegment decodePaddingAllowed s1, DecodeSegment decodePaddingAllowed s2,
        DecodeSegment decodePaddingAllowed s3 with
    | some headerBytes, some claimBytes, some sigBytes =>
      match parseJsonObj (bytesToChars headerBytes), parseJsonObj (bytesToChars claimBytes) with
      | some header, some claimFields =>
        match header.lookup "alg" with
        | some (JVal.str alg) =>
          match p.ValidMethods with
          | some methods =>
            if alg ∈ methods then
              parseResolveAndVerify p registry now tokenString s1 s2 s3 header claimFields
                sigBytes alg keyFunc
            else
              (none, some (.unverifiableError ("signing method " ++ alg ++ " is invalid")))
          | none =>
            parseResolveAndVerify p registry now tokenString s1 s2 s3 header claimFields
              sigBytes alg keyFunc
        | _ => (none, some (.unverifiableError ("signing method (alg) is unavailable")))
      | _, _ => (none, some (.malformedTokenError ("could not JSON decode segment")))
    | _, _, _ => (none, some (.malformedTokenError ("could not base64 decode segment")))
  | _ => (none, some (.malformedTokenError ("token contains an invalid number of segments")))

/-- Modelled from the spec: `Parser.Parse` is `ParseWithClaims` with the
open-mapping claims shape (Go passes `MapClaims\x7b\x7d`). -/
def Parser.Parse {K : Type} (p : Parser K)
    (registry : String → Option (SigningMethod K)) (decodePaddingAllowed : Bool)
    (now : Int) (tokenString : List Char) (keyFunc : Keyfunc K) :
    Option (Token K) × Option TokenError :=
  p.ParseWithClaims registry decodePaddingAllowed now tokenString MapClaimsEmpty keyFunc

/-- Parse from token.go: builds a parser from the functional options and
delegates to its `Parse` method. -/
def Parse {K : Type} (registry : String → Option (SigningMethod K))
    (decodePaddingAllowed : Bool) (now : Int) (tokenString : List Char)
    (keyFunc : Keyfunc K) (options : List (ParserOption K)) :
    Option (Token K) × Option TokenError :=
  (NewParser options).Parse registry decodePaddingAllowed now tokenString keyFunc

/-- ParseWithClaims from token.go: builds a parser from the functional options
and delegates to its `ParseWithClaims` method. -/
def ParseWithClaims {K : Type} (registry : String → Option (SigningMethod K))
    (decodePaddingAllowed : Bool) (now : Int) (tokenString : List Char)
    (claims : Claims) (keyFunc : Keyfunc K) (options : List (ParserOption K)) :
    Option (Token K) × Option TokenError :=
  (NewParser options).ParseWithClaims registry decodePaddingAllowed now tokenString
    claims keyFunc

/-! ### HTTP-request extraction (request/request.go).  The `*http.Request` type
is external to the library and is modelled as an opaque type parameter. -/

/-- The Extractor interface from the request package: locates a compact token
string within a request, or fails. -/
structure Extractor (R : Type) where
  ExtractToken : R → Except TokenError (List Char)

/-- The fromRequestParser struct from request/request.go: the request, the
extractor, and optional claims and parser filled in by options (Go nil pointers
modelled as `none`). -/
structure fromRequestParser (R K : Type) where
  req : R
  extractor : Extractor R
  claims : Option Claims
  parser : Option (Parser K)

/-- ParseFromRequestOption from request/request.go: a function that manipulates
the request-parser configuration. -/
def ParseFromRequestOption (R K : Type) := fromRequestParser R K → fromRequestParser R K

/-- WithClaims from request/request.go: parse with custom claims. -/
def WithClaims {R K : Type} (claims : Claims) : ParseFromRequestOption R K :=
  fun p => { p with claims := some claims }

/-- WithParser from request/request.go: parse using a custom parser. -/
def WithParser {R K : Type} (parser : Parser K) : ParseFromRequestOption R K :=
  fun p => { p with parser := some parser }

/-- ParseFromRequest from request/request.go: build the basic request-parser
struct, apply the options, default the claims to an empty map and the parser to
a zero-value `Parser`, extract the token string from the request — returning a
nil token and the extractor's error on failure — and otherwise delegate to
`ParseWithClaims`.  The registry, padding flag and current time are the
explicit forms of the process-wide state consumed downstream. -/
def ParseFromRequest {R K : Type} (registry : String → Option (SigningMethod K))
    (decodePaddingAllowed : Bool) (now : Int) (req : R) (extractor : Extractor R)
    (keyFunc : Keyfunc K) (options : List (ParseFromRequestOption R K)) :
    Option (Token K) × Option TokenError :=
  let p0 : fromRequestParser R K :=
    { req := req, extractor := extractor, claims := none, parser := none }
  let p := options.foldl (fun acc o => o acc) p0
  let claims := p.claims.getD MapClaimsEmpty
  let parser := p.parser.getD {}
  match p.extractor.ExtractToken req with
  | .error e => (none, some e)
  | .ok tokenString =>
    parser.ParseWithClaims registry decodePaddingAllowed now tokenString claims keyFunc

/-- An extractor that always fails, for the C8 witness. -/
def failingExtractor : Extractor Unit :=
  { ExtractToken := fun _ => .error (.malformedTokenError ("no token present in request")) }

/-! ### Codec lemmas -/

/-- Round-trip of the alphabet maps on 6-bit values. -/
theorem b64Index_b64Char : ∀ i, i < 64 → b64Index (b64Char i) = some i := by decide

/-- The padding character is not in the decode map. -/
theorem b64Index_pad : b64Index '=' = none := by decide

/-- No alphabet character is the padding character. -/
theorem b64Char_ne_pad : ∀ i, i < 64 → b64Char i ≠ '=' := by decide

/-- A character that decodes is not the padding character. -/
theorem b64Index_some_ne_pad {c : Char} {v : Nat} (h : b64Index c = some v) : c ≠ '=' := by
  intro hc
  rw [hc, b64Index_pad] at h
  cases h

/-- Raw (unpadded) decoding inverts raw encoding on every byte sequence. -/
theorem decodeRawURL_encodeRawURL :
    ∀ b : List Nat, (∀ x ∈ b, x < 256) → decodeRawURL (encodeRawURL b) = some b
  | [], _ => rfl
  | [a], h => by
      have ha : a < 256 := h a (by simp)
      simp only [encodeRawURL, decodeRawURL,
        b64Index_b64Char (a / 4) (by omega), b64Index_b64Char (a % 4 * 16) (by omega)]
      have hv : a / 4 * 4 + a % 4 * 16 / 16 = a := by omega
      rw [hv]
  | [a, b], h => by
      have ha : a < 256 := h a (by simp)
      have hb : b < 256 := h b (by simp)
      simp only [encodeRawURL, decodeRawURL,
        b64Index_b64Char (a / 4) (by omega),
        b64Index_b64Char (a % 4 * 16 + b / 16) (by omega),
        b64Index_b64Char (b % 16 * 4) (by omega)]
      have hv1 : a / 4 * 4 + (a % 4 * 16 + b / 16) / 16 = a := by omega
      have hv2 : (a % 4 * 16 + b / 16) % 16 * 16 + b % 16 * 4 / 4 = b := by omega
      rw [hv1, hv2]
  | a :: b :: c :: rest, h => by
      have ha : a < 256 := h a (by simp)
      have hb : b < 256 := h b (by simp)
      have hc : c < 256 := h c (by simp)
      have ih := decodeRawURL_encodeRawURL rest (fun x hx => h x (by simp [hx]))
      simp only [encodeRawURL, encode3, List.append_eq, List.cons_append, List.nil_append,
        decodeRawURL,
        b64Index_b64Char (a / 4) (by omega),
        b64Index_b64Char (a % 4 * 16 + b / 16) (by omega),
        b64Index_b64Char (b % 16 * 4 + c / 64) (by omega),
        b64Index_b64Char (c % 64) (by omega), ih, decode4]
      have hv1 : a / 4 * 4 + (a % 4 * 16 + b / 16) / 16 = a := by omega
      have hv2 : (a % 4 * 16 + b / 16) % 16 * 16 + (b % 16 * 4 + c / 64) / 4 = b := by omega
      have hv3 : (b % 16 * 4 + c / 64) % 4 * 64 + c % 64 = c := by omega
      rw [hv1, hv2, hv3]

/-- Padding to a multiple of 4 commutes with peeling off a full 4-character quantum. -/
theorem padTo4_cons4 (c1 c2 c3 c4 : Char) (s : List Char) :
    padTo4 (c1 :: c2 :: c3 :: c4 :: s) = c1 :: c2 :: c3 :: c4 :: padTo4 s := by
  unfold padTo4
  have hlen : (c1 :: c2 :: c3 :: c4 :: s).length % 4 = s.length % 4 := by
    simp only [List.length_cons]
    omega
  rw [hlen]
  by_cases h : s.length % 4 = 0 <;> simp [h]

/-- The padded decoder agrees with the raw decoder after padding the input
to a multiple of 4 characters. -/
theorem decodeURL_padTo4 :
    ∀ (s : List Char) (v : List Nat), decodeRawURL s = some v → decodeURL (padTo4 s) = some v
  | [], v, h => by
      simpa [padTo4, decodeURL, decodeRawURL] using h
  | [c], v, h => by
      simp [decodeRawURL] at h
  | [c1, c2], v, h => by
      simp only [decodeRawURL] at h
      rcases h1 : b64Index c1 with _ | v1 <;> rw [h1] at h
      · simp at h
      rcases h2 : b64Index c2 with _ | v2 <;> rw [h2] at h
      · simp at h
      simp only [padTo4, List.length_cons, List.length_nil]
      norm_num
      simp [decodeURL, h1, h2, List.replicate]
      simpa using h
  | [c1, c2, c3], v, h => by
      simp only [decodeRawURL] at h
      rcases h1 : b64Index c1 with _ | v1 <;> rw [h1] at h
      · simp at h
      rcases h2 : b64Index c2 with _ | v2 <;> rw [h2] at h
      · simp at h
      rcases h3 : b64Index c3 with _ | v3 <;> rw [h3] at h
      · simp at h
      simp only [padTo4, List.length_cons, List.length_nil]
      norm_num
      simp [decodeURL, h1, h2, h3, List.replicate, b64Index_some_ne_pad h3]
      simpa using h
  | c1 :: c2 :: c3 :: c4 :: rest, v, h => by
      simp only [decodeRawURL] at h
      rcases h1 : b64Index c1 with _ | v1 <;> rw [h1] at h
      · simp at h
      rcases h2 : b64Index c2 with _ | v2 <;> rw [h2] at h
      · simp at h
      rcases h3 : b64Index c3 with _ | v3 <;> rw [h3] at h
      · simp at h
      rcases h4 : b64Index c4 with _ | v4 <;> rw [h4] at h
      · simp at h
      rcases hr : decodeRawURL rest with _ | r <;> rw [hr] at h
      · simp at h
      have ih := decodeURL_padTo4 rest r hr
      rw [padTo4_cons4]
      simp [decodeURL, h1, h2, h3, h4, ih, b64Index_some_ne_pad h3, b64Index_some_ne_pad h4]
      simpa using h

/-- Any input the padded decoder accepts has length a multiple of 4. -/
theorem decodeURL_length_mod4 :
    ∀ (s : List Char) (v : List Nat), decodeURL s = some v → s.length % 4 = 0
  | [], _, _ => rfl
  | [c], v, h => by simp [decodeURL] at h
  | [c1, c2], v, h => by simp [decodeURL] at h
  | [c1, c2, c3], v, h => by simp [decodeURL] at h
  | c1 :: c2 :: c3 :: c4 :: rest, v, h => by
      simp only [decodeURL] at h
      rcases h1 : b64Index c1 with _ | v1 <;> simp only [h1] at h
      · simp at h
      rcases h2 : b64Index c2 with _ | v2 <;> simp only [h2] at h
      · simp at h
      by_cases hc3 : c3 = '='
      · rw [if_pos hc3] at h
        by_cases hc4 : c4 = '=' ∧ rest = []
        · simp only [List.length_cons, hc4.2, List.length_nil]
        · rw [if_neg hc4] at h
          simp at h
      · rw [if_neg hc3] at h
        rcases h3 : b64Index c3 with _ | v3 <;> simp only [h3] at h
        · simp at h
        by_cases hc4 : c4 = '='
        · rw [if_pos hc4] at h
          by_cases hrest : rest = []
          · simp only [List.length_cons, hrest, List.length_nil]
          · rw [if_neg hrest] at h
            simp at h
        · rw [if_neg hc4] at h
          rcases h4 : b64Index c4 with _ | v4 <;> simp only [h4] at h
          · simp at h
          rcases hr : decodeURL rest with _ | r <;> simp only [hr] at h
          · simp at h
          have ih := decodeURL_length_mod4 rest r hr
          simp only [List.length_cons]
          omega

/-- Every character of an input the raw decoder accepts is in the alphabet. -/
theorem decodeRawURL_mem_isSome :
    ∀ (s : List Char) (v : List Nat), decodeRawURL s = some v →
      ∀ c ∈ s, (b64Index c).isSome
  | [], _, _ => by simp
  | [c], v, h => by simp [decodeRawURL] at h
  | [c1, c2], v, h => by
      simp only [decodeRawURL] at h
      rcases h1 : b64Index c1 with _ | v1 <;> rw [h1] at h
      · simp at h
      rcases h2 : b64Index c2 with _ | v2 <;> rw [h2] at h
      · simp at h
      intro c hc
      rcases List.mem_pair.mp hc with rfl | rfl
      · simp [h1]
      · simp [h2]
  | [c1, c2, c3], v, h => by
      simp only [decodeRawURL] at h
      rcases h1 : b64Index c1 with _ | v1 <;> rw [h1] at h
      · simp at h
      rcases h2 : b64Index c2 with _ | v2 <;> rw [h2] at h
      · simp at h
      rcases h3 : b64Index c3 with _ | v3 <;> rw [h3] at h
      · simp at h
      intro c hc
      simp only [List.mem_cons, List.not_mem_nil, or_false] at hc
      rcases hc with rfl | rfl | rfl
      · simp [h1]
      · simp [h2]
      · simp [h3]
  | c1 :: c2 :: c3 :: c4 :: rest, v, h => by
      simp only [decodeRawURL] at h
      rcases h1 : b64Index c1 with _ | v1 <;> rw [h1] at h
      · simp at h
      rcases h2 : b64Index c2 with _ | v2 <;> rw [h2] at h
      · simp at h
      rcases h3 : b64Index c3 with _ | v3 <;> rw [h3] at h
      · simp at h
      rcases h4 : b64Index c4 with _ | v4 <;> rw [h4] at h
      · simp at h
      rcases hr : decodeRawURL rest with _ | r <;> rw [hr] at h
      · simp at h
      have ih := decodeRawURL_mem_isSome rest r hr
      intro c hc
      simp only [List.mem_cons] at hc
      rcases hc with rfl | rfl | rfl | rfl | hmem
      · simp [h1]
      · simp [h2]
      · simp [h3]
      · simp [h4]
      · exact ih c hmem

/-- The raw decoder rejects any input containing the padding character. -/
theorem decodeRawURL_of_pad_mem (s : List Char) (hm : '=' ∈ s) : decodeRawURL s = none := by
  rcases hd : decodeRawURL s with _ | v
  · rfl
  · have := decodeRawURL_mem_isSome s v hd '=' hm
    rw [b64Index_pad] at this
    simp at this

/-! ### Claim theorems about the codec -/

/-- C2: for every byte sequence `b`, `DecodeSegment (EncodeSegment b)` succeeds
and returns `b`, whether or not the process-wide `DecodePaddingAllowed` flag
is set. -/
theorem decodeSegment_encodeSegment (decodePaddingAllowed : Bool) (b : List Nat)
    (hb : ∀ x ∈ b, x < 256) :
    DecodeSegment decodePaddingAllowed (EncodeSegment b) = some b := by
  cases decodePaddingAllowed with
  | false =>
      simpa [DecodeSegment, EncodeSegment] using decodeRawURL_encodeRawURL b hb
  | true =>
      simp only [DecodeSegment, EncodeSegment, if_true]
      exact decodeURL_padTo4 _ _ (decodeRawURL_encodeRawURL b hb)

/-- Witness for C2 at the concrete byte sequence `[104, 101, 108, 108, 111]`,
under both decode modes. -/
theorem decodeSegment_encodeSegment_witness :
    DecodeSegment false (EncodeSegment [104, 101, 108, 108, 111]) =
        some [104, 101, 108, 108, 111] ∧
      DecodeSegment true (EncodeSegment [104, 101, 108, 108, 111]) =
        some [104, 101, 108, 108, 111] :=
  ⟨decodeSegment_encodeSegment false [104, 101, 108, 108, 111] (by decide),
   decodeSegment_encodeSegment true [104, 101, 108, 108, 111] (by decide)⟩

/-- C3: a segment accepted by the padded base64url decoder that carries trailing
`'='` padding is rejected by `DecodeSegment` in standard mode and accepted in
legacy (padding-allowed) mode; a segment accepted by the unpadded decoder is
accepted in both modes. -/
theorem decodeSegment_padding_modes (s : List Char) :
    (∀ v, decodeURL s = some v → s.getLast? = some '=' →
      DecodeSegment false s = none ∧ DecodeSegment true s = some v) ∧
    (∀ v, decodeRawURL s = some v →
      DecodeSegment false s = some v ∧ DecodeSegment true s = some v) := by
  constructor
  · intro v h hl
    have hmem : '=' ∈ s := by
      rcases List.mem_getLast?_eq_getLast (by simpa [Option.mem_def] using hl) with ⟨hne, heq⟩
      rw [heq]
      exact List.getLast_mem hne
    constructor
    · simpa [DecodeSegment] using decodeRawURL_of_pad_mem s hmem
    · have hpad : padTo4 s = s := by
        simp [padTo4, decodeURL_length_mod4 s v h]
      simpa [DecodeSegment, hpad] using h
  · intro v h
    constructor
    · simpa [DecodeSegment] using h
    · simp only [DecodeSegment, if_true]
      exact decodeURL_padTo4 s v h

/-- Witness for C3: the padded segment `"QQ=="` decodes only in legacy mode,
and the unpadded segment `"QQ"` decodes in both modes. -/
theorem decodeSegment_padding_modes_witness :
    (DecodeSegment false ("QQ==").data = none ∧
      DecodeSegment true ("QQ==").data = some [65]) ∧
    (DecodeSegment false ("QQ").data = some [65] ∧
      DecodeSegment true ("QQ").data = some [65]) :=
  ⟨(decodeSegment_padding_modes ("QQ==").data).1 [65] (by decide) (by decide),
   (decodeSegment_padding_modes ("QQ").data).2 [65] (by decide)⟩

/-- C7: the output of `EncodeSegment` on a byte sequence never contains the
padding character; by definition `EncodeSegment` does not read the process-wide
`DecodePaddingAllowed` flag, so this holds under either decode mode. -/
theorem encodeSegment_no_padding :
    ∀ b : List Nat, (∀ x ∈ b, x < 256) → '=' ∉ EncodeSegment b
  | [], _ => by simp [EncodeSegment, encodeRawURL]
  | [a], h => by
      have ha : a < 256 := h a (by simp)
      intro hm
      simp only [EncodeSegment, encodeRawURL] at hm
      rcases List.mem_pair.mp hm with h1 | h1
      · exact b64Char_ne_pad (a / 4) (by omega) h1.symm
      · exact b64Char_ne_pad (a % 4 * 16) (by omega) h1.symm
  | [a, b], h => by
      have ha : a < 256 := h a (by simp)
      have hb : b < 256 := h b (by simp)
      intro hm
      simp only [EncodeSegment, encodeRawURL, List.mem_cons, List.not_mem_nil,
        or_false] at hm
      rcases hm with h1 | h1 | h1
      · exact b64Char_ne_pad (a / 4) (by omega) h1.symm
      · exact b64Char_ne_pad (a % 4 * 16 + b / 16) (by omega) h1.symm
      · exact b64Char_ne_pad (b % 16 * 4) (by omega) h1.symm
  | a :: b :: c :: rest, h => by
      have ha : a < 256 := h a (by simp)
      have hb : b < 256 := h b (by simp)
      have hc : c < 256 := h c (by simp)
      have ih := encodeSegment_no_padding rest (fun x hx => h x (by simp [hx]))
      intro hm
      simp only [EncodeSegment, encodeRawURL, encode3, List.append_eq, List.cons_append,
        List.nil_append, List.mem_cons] at hm
      rcases hm with h1 | h1 | h1 | h1 | h1
      · exact b64Char_ne_pad (a / 4) (by omega) h1.symm
      · exact b64Char_ne_pad (a % 4 * 16 + b / 16) (by omega) h1.symm
      · exact b64Char_ne_pad (b % 16 * 4 + c / 64) (by omega) h1.symm
      · exact b64Char_ne_pad (c % 64) (by omega) h1.symm
      · exact ih h1

/-- Witness for C7 at the concrete byte sequence `[0, 255, 7, 9]`. -/
theorem encodeSegment_no_padding_witness : '=' ∉ EncodeSegment [0, 255, 7, 9] :=
  encodeSegment_no_padding [0, 255, 7, 9] (by decide)

/-! ### Token data model and issuance path (token.go). -/

/-- The signing-string computation leaves the receiver state unchanged, as the
Go method body contains no assignment to the receiver. -/
theorem signingString_state {K : Type} (t : Token K) : (t.SigningString).2 = t := by
  unfold Token.SigningString
  rcases h1 : serializeObj t.Header with e | s1 <;> simp only [h1]
  rcases h2 : t.Claims.marshal with e | s2 <;> simp only [h2]

/-- The signed-string computation leaves the receiver state unchanged. -/
theorem signedString_state {K : Type} (t : Token K) (key : K) :
    (t.SignedString key).2 = t := by
  have hst := signingString_state t
  unfold Token.SignedString
  rcases h : t.SigningString with ⟨r, t1⟩
  rw [h] at hst
  rcases r with e | sstr
  · exact hst
  · rcases h2 : t1.Method.Sign sstr key with e | sig <;> simp only [h2] <;> exact hst

/-! ### Claim theorems about token construction and issuance -/

/-- C4: every token built by `New` or `NewWithClaims` carries header entries
`typ ↦ "JWT"` and `alg ↦ method.Alg()`, and its verified flag is false. -/
theorem newWithClaims_header_valid {K : Type} (method : SigningMethod K) (claims : Claims) :
    ((NewWithClaims method claims).Header.lookup "typ" = some (JVal.str "JWT") ∧
      (NewWithClaims method claims).Header.lookup "alg" = some (JVal.str method.Alg) ∧
      (NewWithClaims method claims).Valid = false) ∧
    ((New method).Header.lookup "typ" = some (JVal.str "JWT") ∧
      (New method).Header.lookup "alg" = some (JVal.str method.Alg) ∧
      (New method).Valid = false) := by
  refine ⟨⟨?_, ?_, rfl⟩, ?_, ?_, rfl⟩ <;> simp [NewWithClaims, New, List.lookup]

/-- C5: when header and claims serialize and the method signs, `SignedString`
returns the two encoded segments joined by a dot — the signing input — followed
by a dot and the signature produced over exactly that signing input. -/
theorem signedString_structure {K : Type} (t : Token K) (key : K) (h c sg : List Char)
    (hh : serializeObj t.Header = .ok h)
    (hc : t.Claims.marshal = .ok c)
    (hs : t.Method.Sign
        (EncodeSegment (strToBytes h) ++ '.' :: EncodeSegment (strToBytes c)) key = .ok sg) :
    (t.SignedString key).1 =
      .ok ((EncodeSegment (strToBytes h) ++ '.' :: EncodeSegment (strToBytes c)) ++
        '.' :: sg) := by
  unfold Token.SignedString Token.SigningString
  simp only [hh, hc, hs]

/-- Witness for C5: a fresh token with empty map claims under `demoMethod`. -/
theorem signedString_structure_witness :
    ((NewWithClaims demoMethod MapClaimsEmpty).SignedString ()).1 =
      .ok ((EncodeSegment (strToBytes (("\x7b\"typ\":\"JWT\",\"alg\":\"demo\"\x7d").data)) ++
        '.' :: EncodeSegment (strToBytes (("\x7b\x7d").data))) ++ '.' :: ("sig").data) :=
  signedString_structure (NewWithClaims demoMethod MapClaimsEmpty) () _ _ _
    (by rfl) (by rfl) (by rfl)

/-- C6: `SignedString` performs no claims validation.  Any failure it returns is
tagged as a serialization (`marshalError`) or signing (`signError`) failure,
never a `claimsInvalidError`; and on a token whose claims fail their own
validity check, `SignedString` still succeeds whenever serialization and
`Method.Sign` succeed. -/
theorem signedString_skips_validation {K : Type} (t : Token K) (key : K) :
    (∀ e, (t.SignedString key).1 = .error e →
      (∃ m, e = TokenError.marshalError m) ∨ (∃ m, e = TokenError.signError m)) ∧
    (t.Claims.valid ≠ none →
      ∀ sstr sig, (t.SigningString).1 = .ok sstr →
        t.Method.Sign sstr key = .ok sig →
        (t.SignedString key).1 = .ok (sstr ++ '.' :: sig)) := by
  constructor
  · intro e he
    unfold Token.SignedString Token.SigningString at he
    rcases h1 : serializeObj t.Header with e1 | s1 <;>
      simp only [h1, Except.error.injEq] at he
    · exact Or.inl ⟨e1, he.symm⟩
    rcases h2 : t.Claims.marshal with e2 | s2 <;>
      simp only [h2, Except.error.injEq] at he
    · exact Or.inl ⟨e2, he.symm⟩
    rcases h3 : t.Method.Sign
        (EncodeSegment (strToBytes s1) ++ '.' :: EncodeSegment (strToBytes s2)) key
      with e3 | s3 <;> simp only [h3, Except.error.injEq] at he
    · exact Or.inr ⟨e3, he.symm⟩
    · simp at he
  · intro _ sstr sig h1 h2
    have hst := signingString_state t
    unfold Token.SignedString
    rcases h : t.SigningString with ⟨r, t1⟩
    rw [h] at hst h1
    change r = Except.ok sstr at h1
    change t1 = t at hst
    subst h1
    rw [hst]
    simp only [h2]

/-- Witness for C6: signing a token with already-expired claims succeeds. -/
theorem signedString_skips_validation_witness :
    ((NewWithClaims demoMethod expiredClaims).SignedString ()).1 =
      .ok ((EncodeSegment (strToBytes (("\x7b\"typ\":\"JWT\",\"alg\":\"demo\"\x7d").data)) ++
        '.' :: EncodeSegment (strToBytes (("\x7b\"exp\":1\x7d").data))) ++
          '.' :: ("sig").data) :=
  (signedString_skips_validation (NewWithClaims demoMethod expiredClaims) ()).2
    (by simp [NewWithClaims, expiredClaims])
    (EncodeSegment (strToBytes (("\x7b\"typ\":\"JWT\",\"alg\":\"demo\"\x7d").data)) ++
      '.' :: EncodeSegment (strToBytes (("\x7b\"exp\":1\x7d").data)))
    (("sig").data) (by rfl) (by rfl)

/-- C9: neither `SigningString` nor `SignedString` mutates the token: the
receiver state after either call equals the original token, so in particular
its `Raw`, `Method`, `Header`, `Claims`, `Signature` and `Valid` fields are all
unchanged (signing populates neither `Signature` nor `Valid`). -/
theorem signing_does_not_mutate {K : Type} (t : Token K) (key : K) :
    (t.SigningString).2 = t ∧ (t.SignedString key).2 = t :=
  ⟨signingString_state t, signedString_state t key⟩

/-- C10: `New` produces exactly `NewWithClaims` applied to an empty claims map —
the same token record, hence the same header, claims and method — and therefore
identical `SignedString` behavior for every key. -/
theorem new_eq_newWithClaims_empty {K : Type} (method : SigningMethod K) (key : K) :
    New method = NewWithClaims method MapClaimsEmpty ∧
    (New method).SignedString key = (NewWithClaims method MapClaimsEmpty).SignedString key :=
  ⟨rfl, rfl⟩

/-! ### Claim theorems about the parser and request extraction -/

/-- C1: with an allow-list configured via `WithValidMethods`, parsing a token
whose header `alg` is not a member of the list fails with `unverifiableError` —
even when, as the hypotheses state, the registry knows the algorithm, the key
resolver succeeds, and the signature would verify under that algorithm. -/
theorem parse_disallowed_alg_unverifiable {K : Type} (p0 : Parser K)
    (methods : List String) (registry : String → Option (SigningMethod K))
    (decodePaddingAllowed : Bool) (now : Int) (ts s1 s2 s3 : List Char)
    (hb cb sb : List Nat) (header claimFields : List (String × JVal)) (alg : String)
    (m : SigningMethod K) (claims : Claims) (keyFunc : Keyfunc K) (key : K)
    (hsplit : splitOnDot ts = [s1, s2, s3])
    (h1 : DecodeSegment decodePaddingAllowed s1 = some hb)
    (h2 : DecodeSegment decodePaddingAllowed s2 = some cb)
    (h3 : DecodeSegment decodePaddingAllowed s3 = some sb)
    (hho : parseJsonObj (bytesToChars hb) = some header)
    (hco : parseJsonObj (bytesToChars cb) = some claimFields)
    (halg : header.lookup "alg" = some (JVal.str alg))
    (hnot : alg ∉ methods)
    (hreg : registry alg = some m)
    (hkf : ∀ tok, keyFunc tok = .ok key)
    (hver : m.Verify (s1 ++ '.' :: s2) sb key = none) :
    ((WithValidMethods methods p0).ParseWithClaims registry decodePaddingAllowed now ts
        claims keyFunc).2 =
      some (.unverifiableError ("signing method " ++ alg ++ " is invalid")) := by
  unfold Parser.ParseWithClaims
  rw [hsplit]
  simp only [h1, h2, h3, hho, hco, halg, WithValidMethods]
  simp [hnot]

/-- Witness for C1: a well-formed token signed under the `demo` algorithm,
whose signature the demo method accepts, is still rejected because the
configured allow-list contains only `RS256`. -/
theorem parse_disallowed_alg_unverifiable_witness :
    ((WithValidMethods ["RS256"] ({} : Parser Unit)).ParseWithClaims
        (fun _ => some demoMethod) false 0
        (EncodeSegment (strToBytes (("\x7b\"alg\":\"demo\"\x7d").data)) ++
          '.' :: (EncodeSegment (strToBytes (("\x7b\x7d").data)) ++ '.' :: []))
        MapClaimsEmpty (fun _ => .ok ())).2 =
      some (TokenError.unverifiableError ("signing method " ++ "demo" ++ " is invalid")) :=
  parse_disallowed_alg_unverifiable ({} : Parser Unit) ["RS256"]
    (fun _ => some demoMethod) false 0 _
    (EncodeSegment (strToBytes (("\x7b\"alg\":\"demo\"\x7d").data)))
    (EncodeSegment (strToBytes (("\x7b\x7d").data))) []
    (strToBytes (("\x7b\"alg\":\"demo\"\x7d").data)) (strToBytes (("\x7b\x7d").data)) []
    [("alg", JVal.str "demo")] [] "demo" demoMethod MapClaimsEmpty (fun _ => .ok ()) ()
    (by rfl) (by rfl) (by rfl) (by rfl) (by rfl) (by rfl) (by rfl) (by decide)
    (by rfl) (fun tok => rfl) (by rfl)

/-- Applying any sequence of the package's request options (`WithClaims`,
`WithParser`) leaves the extractor field untouched. -/
theorem applyOptions_extractor {R K : Type} :
    ∀ (options : List (ParseFromRequestOption R K)) (p : fromRequestParser R K),
      (∀ o ∈ options, (∃ c, o = WithClaims c) ∨ (∃ pr, o = WithParser pr)) →
      (options.foldl (fun acc o => o acc) p).extractor = p.extractor
  | [], _, _ => rfl
  | o :: rest, p, h => by
      have ho := h o (by simp)
      have hrest := applyOptions_extractor rest (o p) (fun x hx => h x (by simp [hx]))
      rw [List.foldl_cons, hrest]
      rcases ho with ⟨c, rfl⟩ | ⟨pr, rfl⟩
      · rfl
      · rfl

/-- C8: when the extractor fails, `ParseFromRequest` returns a nil token and
exactly the extractor's error, for every key resolver and every combination of
the package's options; the result does not depend on the parser configuration
or the key resolver, so neither is consulted. -/
theorem parseFromRequest_extractor_error {R K : Type}
    (registry : String → Option (SigningMethod K)) (decodePaddingAllowed : Bool)
    (now : Int) (req : R) (extractor : Extractor R) (keyFunc : Keyfunc K)
    (options : List (ParseFromRequestOption R K)) (e : TokenError)
    (hopts : ∀ o ∈ options, (∃ c, o = WithClaims c) ∨ (∃ pr, o = WithParser pr))
    (hext : extractor.ExtractToken req = .error e) :
    ParseFromRequest registry decodePaddingAllowed now req extractor keyFunc options =
      (none, some e) := by
  simp only [ParseFromRequest]
  rw [applyOptions_extractor options _ hopts]
  simp only [hext]

/-- Witness for C8: a failing extractor's error is returned verbatim, here with
a `WithClaims` option in effect. -/
theorem parseFromRequest_extractor_error_witness :
    ParseFromRequest (fun _ => some demoMethod) false 0 () failingExtractor
        (fun _ => .ok ()) [WithClaims MapClaimsEmpty] =
      (none, some (TokenError.malformedTokenError ("no token present in request"))) :=
  parseFromRequest_extractor_error (fun _ => some demoMethod) false 0 () failingExtractor
    (fun _ => .ok ()) [WithClaims MapClaimsEmpty]
    (.malformedTokenError ("no token present in request"))
    (fun o ho => Or.inl ⟨MapClaimsEmpty, (List.mem_singleton.mp ho)⟩)
    rfl

